import Mathlib

/-!
Shallow embedding of the loan calculator engine (`src/index.js`) and proofs
about the claims of its specification.

Numbers are modelled as rationals (`ℚ`).  The engine's own code — context
construction and normalization, the per-period schedule loop, repayment
policy, settlement, initial period, and totals — is translated from the
source.  The external collaborators that the repository does not contain
(the `financial-calculator-engine` base class, its math primitives and the
operator classes) are modelled from the spec, as marked on each definition.
-/

namespace LoanEngine

/-- Repayment type enumeration, from `LoanCalculatorEngine.repaymentType`
(`interestOnly: 'IO'`, `principalAndInterest: 'PI'`). -/
inductive RepaymentType where
  | interestOnly : RepaymentType
  | principalAndInterest : RepaymentType
  deriving DecidableEq, Repr

/-- The per-period context, from `class Context` in the source plus the
optional operator-contributed fields (`effExtraRepayment`, `lumpSum`,
`offset`, `fee`), which are absent (hence read as `0` through `|| 0`)
until an operator sets them. -/
@[ext] structure Context where
  presentValue : ℚ
  interestRate : ℚ
  interestRateFrequency : ℚ
  effInterestRate : ℚ
  term : ℚ
  termFrequency : ℚ
  effTerm : ℚ
  repayment : ℚ
  repaymentType : RepaymentType
  repaymentFrequency : ℚ
  effExtraRepayment : ℚ
  lumpSum : ℚ
  offset : ℚ
  fee : ℚ
  deriving DecidableEq, Repr

/-- Settlement result, from `class Amortization` in the source. -/
@[ext] structure Amortization where
  futureValue : ℚ
  repayment : ℚ
  interestPaid : ℚ
  principalPaid : ℚ
  deriving DecidableEq, Repr

/-- One schedule entry: `{ period, context, amortization }` as pushed onto
`this.scheduleList` in the source. -/
@[ext] structure ScheduleItem where
  period : ℕ
  context : Context
  amortization : Amortization
  deriving DecidableEq, Repr

/-- The totals object produced by `__calculateTotals` (only the two fields
the engine reports). -/
@[ext] structure Totals where
  repayment : ℚ
  interestPaid : ℚ
  deriving DecidableEq, Repr

/-- User options passed to the constructor; a missing field means the
default from the `defaults` object in `Context`'s constructor is kept
(`_.merge(this, defaults, options)`). -/
structure LoanOptions where
  presentValue : Option ℚ := none
  interestRate : Option ℚ := none
  interestRateFrequency : Option ℚ := none
  term : Option ℚ := none
  termFrequency : Option ℚ := none
  repayment : Option ℚ := none
  repaymentType : Option RepaymentType := none
  repaymentFrequency : Option ℚ := none
  deriving Repr

/-- Modelled from the spec: the external math primitives
`pmt(presentValue, rate, periods)` and `nper(presentValue, rate, payment)`
live in `financial-calculator-engine/lib/math`, which is not part of this
repository.  They are pure functions (spec §6); we keep them abstract as a
parameter of the whole development. -/
structure MathPrims where
  pmt : ℚ → ℚ → ℚ → ℚ
  nper : ℚ → ℚ → ℚ → ℚ

/-- Modelled from the spec: the external `effInterestRate(rate, from, to)`
primitive.  Frequencies are occurrences per year (spec §4.1), and the
concrete scenario of spec §8 (annual 0.06 at monthly repayments gives
0.005) fixes the formula `rate * from / to`. -/
def effInterestRateFn (rate fromFreq toFreq : ℚ) : ℚ :=
  rate * fromFreq / toFreq

/-- Modelled from the spec: the external `effTerm(term, from, to)` primitive.
The concrete scenario of spec §8 (10 years at monthly repayments gives 120
periods) fixes the formula `term * to / from`. -/
def effTermFn (term fromFreq toFreq : ℚ) : ℚ :=
  term * toFreq / fromFreq

/-- JavaScript's `Math.round`: nearest integer, ties rounding toward
positive infinity, i.e. `⌊x + 1/2⌋`. -/
def jsRound (x : ℚ) : ℚ :=
  ((⌊x + 1 / 2⌋ : ℤ) : ℚ)

/-- Rounding to the nearest integer with ties away from zero — the rounding
mode the spec's §4.1 ascribes to the term derivation. -/
def roundHalfAwayFromZero (x : ℚ) : ℚ :=
  if 0 ≤ x then ((⌊x + 1 / 2⌋ : ℤ) : ℚ) else -((⌊-x + 1 / 2⌋ : ℤ) : ℚ)

/-- The `_.merge(this, defaults, options)` step of `Context`'s constructor:
defaults (with `config.frequency.year = 1` and `config.frequency.month = 12`,
the occurrences-per-year constants modelled from spec §6) overridden by the
options present. -/
def mergeOptions (o : LoanOptions) : Context where
  presentValue := o.presentValue.getD 0
  interestRate := o.interestRate.getD 0
  interestRateFrequency := o.interestRateFrequency.getD 1
  effInterestRate := 0
  term := o.term.getD 0
  termFrequency := o.termFrequency.getD 1
  effTerm := 0
  repayment := o.repayment.getD 0
  repaymentType := o.repaymentType.getD RepaymentType.principalAndInterest
  repaymentFrequency := o.repaymentFrequency.getD 12
  effExtraRepayment := 0
  lumpSum := 0
  offset := 0
  fee := 0

/-- `Context.__normalizeValues` from the source: compute the effective
interest rate; derive the term through `nper` and `Math.round` when the
merged term is falsy (`!this.term`, i.e. zero); compute the effective term. -/
def normalizeValues (M : MathPrims) (c : Context) : Context :=
  let eff := effInterestRateFn c.interestRate c.interestRateFrequency c.repaymentFrequency
  let t := if c.term = 0 then jsRound (M.nper c.presentValue eff c.repayment) else c.term
  { c with
      effInterestRate := eff
      term := t
      effTerm := effTermFn t c.termFrequency c.repaymentFrequency }

/-- `new Context(options, config)` from the source: merge defaults with the
options, then normalize. -/
def mkContext (M : MathPrims) (o : LoanOptions) : Context :=
  normalizeValues M (mergeOptions o)

/-- Construction of the engine viewed as a fallible operation: the source's
constructors (`LoanCalculatorEngine`, `Context`) contain no validation and
never throw, so construction always succeeds with the normalized context.
(The external `CalculatorEngine` base constructor is, per spec §6, only
registration/configuration and is modelled as never failing.) -/
def codeConstruct (M : MathPrims) (o : LoanOptions) : Option Context :=
  some (mkContext M o)

/-- Modelled from the spec: the operator (adjustment) kinds registered in
`LoanCalculatorEngine`'s constructor.  The operator classes themselves
(`./operators/...`) are not part of the provided source; spec §4.2 says each
adds/overwrites one context field (`fee`, `offset`, `lumpSum`,
`effExtraRepayment`) or overwrites `effInterestRate` using the same
normalization rule as §4.1. -/
inductive OperatorKind where
  | feeAmount : ℚ → OperatorKind
  | offsetAmount : ℚ → OperatorKind
  | lumpSumAmount : ℚ → OperatorKind
  | extraRepaymentAmount : ℚ → OperatorKind
  | interestRateChange : ℚ → ℚ → OperatorKind
  deriving DecidableEq, Repr

/-- Modelled from the spec: an adjustment handler scoped to an inclusive
`[startPeriod, endPeriod]` range (spec §4.2). -/
structure Operator where
  startPeriod : ℕ
  endPeriod : ℕ
  kind : OperatorKind
  deriving DecidableEq, Repr

/-- Whether an operator is the fee operator. -/
def isFeeOp (o : Operator) : Bool :=
  match o.kind with
  | OperatorKind.feeAmount _ => true
  | _ => false

/-- Modelled from the spec: applying one operator mutates the context by
overwriting its field (last write wins when folded in registration order);
an interest-rate change recomputes `effInterestRate` with the §4.1
normalization rule. -/
def applyOperator (c : Context) (o : Operator) : Context :=
  match o.kind with
  | OperatorKind.feeAmount a => { c with fee := a }
  | OperatorKind.offsetAmount a => { c with offset := a }
  | OperatorKind.lumpSumAmount a => { c with lumpSum := a }
  | OperatorKind.extraRepaymentAmount a => { c with effExtraRepayment := a }
  | OperatorKind.interestRateChange r f =>
      { c with
          interestRate := r
          interestRateFrequency := f
          effInterestRate := effInterestRateFn r f c.repaymentFrequency }

/-- Whether an operator is active at `period` (start and end inclusive,
`getOperatorsAt` of the base engine per spec §6). -/
def operatorActive (period : ℕ) (o : Operator) : Bool :=
  decide (o.startPeriod ≤ period) && decide (period ≤ o.endPeriod)

/-- `this.getOperatorsAt(period)`: the registered operators active at the
period, in registration order. -/
def getOperatorsAt (ops : List Operator) (period : ℕ) : List Operator :=
  ops.filter (operatorActive period)

/-- The `operators.forEach(operator => operator.process(period, context))`
loop of `__calculateContext`. -/
def applyOperators (c : Context) (period : ℕ) (ops : List Operator) : Context :=
  (getOperatorsAt ops period).foldl applyOperator c

/-- Removing every fee operator from the registered list (the comparison
run for the fee frame-effect claim). -/
def eraseFees (ops : List Operator) : List Operator :=
  ops.filter (fun o => !(isFeeOp o))

/-- `LoanCalculatorEngine.__calculateRepayment` from the source. -/
def calculateRepayment (M : MathPrims) (period : ℕ) (c : Context) : ℚ :=
  if c.repaymentType = RepaymentType.interestOnly then
    c.presentValue * c.effInterestRate
  else
    M.pmt c.presentValue c.effInterestRate (c.effTerm - (period : ℚ) + 1)

/-- `LoanCalculatorEngine.__calculateContext` from the source: fresh copy of
the base context, present value carried from the previous entry's future
value, operators applied, then the repayment decided
(`mustRecalculateRepayment = !prevRepayment || hasChangedEffInterestRate`). -/
def calculateContext (M : MathPrims) (base : Context) (ops : List Operator)
    (period : ℕ) (prev : ScheduleItem) : Context :=
  let ctx0 := { base with presentValue := prev.amortization.futureValue }
  let ctx1 := applyOperators ctx0 period ops
  { ctx1 with
      repayment :=
        if prev.context.repayment = 0 ∨
            prev.context.effInterestRate ≠ ctx1.effInterestRate then
          calculateRepayment M period ctx1
        else
          prev.context.repayment }

/-- `LoanCalculatorEngine.__calculateAmortization` from the source, kept in
the source's operation order. -/
def calculateAmortization (c : Context) : Amortization :=
  let repayment0 := c.repayment + c.effExtraRepayment + c.lumpSum
  let consideredPrincipal := c.presentValue - c.offset
  let interestPaid := max (consideredPrincipal * c.effInterestRate) 0
  let repayment1 :=
    if repayment0 > c.presentValue then c.presentValue + interestPaid else repayment0
  let principalPaid := repayment1 - interestPaid
  let futureValue := c.presentValue - principalPaid
  { futureValue := futureValue
    repayment := repayment1 + c.fee
    interestPaid := interestPaid
    principalPaid := principalPaid }

/-- One iteration body of the `__calculate` loop: build the context for the
period, settle it, and package the schedule entry. -/
def mkItem (M : MathPrims) (base : Context) (ops : List Operator)
    (period : ℕ) (prev : ScheduleItem) : ScheduleItem :=
  let c := calculateContext M base ops period prev
  { period := period, context := c, amortization := calculateAmortization c }

/-- `__calculateInitialPeriod` from the source: period 0, a fresh base
context, and an all-zero amortization except `futureValue = presentValue`. -/
def initialItem (base : Context) : ScheduleItem where
  period := 0
  context := base
  amortization :=
    { futureValue := base.presentValue, repayment := 0, interestPaid := 0, principalPaid := 0 }

/-- Number of iterations of `for (period = 1; period <= effTerm; period++)`:
the integer periods at most `effTerm`. -/
def effTermNat (base : Context) : ℕ :=
  (⌊base.effTerm⌋).toNat

/-- The `__calculate` loop from the source: at each remaining period build
the context from the previous entry, settle, append, and break as soon as
the settled `futureValue` is ≤ 0. -/
def runLoop (M : MathPrims) (base : Context) (ops : List Operator) :
    ℕ → ℕ → ScheduleItem → List ScheduleItem
  | 0, _, _ => []
  | fuel + 1, period, prev =>
    let item := mkItem M base ops period prev
    if item.amortization.futureValue ≤ 0 then [item]
    else item :: runLoop M base ops fuel (period + 1) item

/-- The running (period ≥ 1) portion of the schedule produced by
`__calculate`. -/
def runList (M : MathPrims) (base : Context) (ops : List Operator) : List ScheduleItem :=
  runLoop M base ops (effTermNat base) 1 (initialItem base)

/-- The full `scheduleList` after `calculate()`: the initial entry followed
by the running entries. -/
def calculateSchedule (M : MathPrims) (base : Context) (ops : List Operator) :
    List ScheduleItem :=
  initialItem base :: runList M base ops

/-- One step of the totals reduction in `__calculateTotals`. -/
def addTotals (t : Totals) (a : Amortization) : Totals where
  repayment := t.repayment + a.repayment
  interestPaid := t.interestPaid + a.interestPaid

/-- `__calculateTotals` from the source: `amortizationList.reduce(...)` with
no initial accumulator — JavaScript's `reduce` throws on an empty list
(modelled as `none`) and otherwise seeds the fold with the first element
(of which the engine only ever reads `repayment` and `interestPaid`). -/
def calculateTotals : List Amortization → Option Totals
  | [] => none
  | a :: rest =>
      some (rest.foldl addTotals { repayment := a.repayment, interestPaid := a.interestPaid })

/-- `calculate()` from the source: clear results, push the initial period,
run the loop, then compute totals; returns `{ totals, scheduleList }`. -/
def calculate (M : MathPrims) (base : Context) (ops : List Operator) :
    Option Totals × List ScheduleItem :=
  let sl := calculateSchedule M base ops
  (calculateTotals (sl.map (fun it => it.amortization)), sl)

/-- A concrete instance of the abstract `pmt` primitive used for witnesses
and counterexamples.  It satisfies the contract spec §4.3 states for the
external formula: at rate 0 the payment is `pv / n`, and at positive rate
`payment * n = pv * r * n + pv ≥ pv` for non-negative inputs. -/
def samplePmt (pv r n : ℚ) : ℚ :=
  if r = 0 then pv / n else pv * r + pv / n

/-- A concrete instance of the abstract `nper` primitive used for witnesses
and counterexamples: at any rate it returns the zero-rate period count
`pv / payment` (the standard `nper` value when rate is 0). -/
def sampleNper (pv _rate payment : ℚ) : ℚ :=
  if payment = 0 then 0 else pv / payment

/-- The sample instantiation of the external math primitives. -/
def sampleM : MathPrims where
  pmt := samplePmt
  nper := sampleNper

/-- The period settlement written from the spec's §4.4 wording (steps 1–7 in
the spec's order), to be compared with the source's `__calculateAmortization`. -/
def specSettle (c : Context) : Amortization :=
  let repayment := c.repayment + c.effExtraRepayment + c.lumpSum
  let consideredPrincipal := c.presentValue - c.offset
  let interestPaid := max 0 (consideredPrincipal * c.effInterestRate)
  let capped :=
    if repayment > c.presentValue then c.presentValue + interestPaid else repayment
  let principalPaid := capped - interestPaid
  let futureValue := c.presentValue - principalPaid
  { futureValue := futureValue
    repayment := capped + c.fee
    interestPaid := interestPaid
    principalPaid := principalPaid }

/-- Overwrite the `fee` field of a context. -/
def setFee (c : Context) (x : ℚ) : Context :=
  { c with fee := x }

/-- The effect of one operator on the `fee` field alone. -/
def feeUpdate (o : Operator) (f : ℚ) : ℚ :=
  match o.kind with
  | OperatorKind.feeAmount a => a
  | _ => f

/-- Relation between a schedule entry of a run and the corresponding entry
of the same run with the fee operators removed: same period, same context
except the `fee` field (zero in the fee-free run), and the same amortization
except that the reported repayment is smaller by exactly the fee. -/
def FeeFrame (it itNF : ScheduleItem) : Prop :=
  itNF.period = it.period ∧
  itNF.context = setFee it.context 0 ∧
  itNF.amortization =
    { it.amortization with repayment := it.amortization.repayment - it.context.fee }

/-- A context whose pending repayment (base plus extra repayment plus lump
sum) is at least the interest the settlement will charge on it. -/
def coversInterest (c : Context) : Prop :=
  max ((c.presentValue - c.offset) * c.effInterestRate) 0 ≤
    c.repayment + c.effExtraRepayment + c.lumpSum

/-- Claim C2 as stated: for `p ≥ 1`, the base repayment is recomputed
exactly when `p` is the first period or the effective rate differs from the
previous period's, with the interest-only/`pmt` formulas; otherwise the
previous period's repayment is carried over. -/
def C2RepaymentClaim (M : MathPrims) (base : Context) (ops : List Operator)
    (p : ℕ) : Prop :=
  ∀ it prev, 1 ≤ p →
    (calculateSchedule M base ops).get? p = some it →
    (calculateSchedule M base ops).get? (p - 1) = some prev →
    it.context.repayment =
      if p = 1 ∨ prev.context.effInterestRate ≠ it.context.effInterestRate then
        (if it.context.repaymentType = RepaymentType.interestOnly then
          it.context.presentValue * it.context.effInterestRate
        else
          M.pmt it.context.presentValue it.context.effInterestRate
            (it.context.effTerm - (p : ℚ) + 1))
      else prev.context.repayment

/-- Claim C3's consequent as stated: when no settled entry's future value is
≤ 0, the last entry's period equals `effTerm` (the raw effective term of the
base context). -/
def C3LastPeriodClaim (M : MathPrims) (base : Context) (ops : List Operator) : Prop :=
  (∀ it ∈ calculateSchedule M base ops,
      1 ≤ it.period → 0 < it.amortization.futureValue) →
  ∀ it, (calculateSchedule M base ops).getLast? = some it →
    (it.period : ℚ) = base.effTerm

/-- Claim C5 as stated: future value is monotonically non-increasing from
each schedule entry to the next. -/
def C5MonotoneClaim (M : MathPrims) (base : Context) (ops : List Operator) : Prop :=
  ∀ i a b, (calculateSchedule M base ops).get? i = some a →
    (calculateSchedule M base ops).get? (i + 1) = some b →
    b.amortization.futureValue ≤ a.amortization.futureValue

/-- Claim C7 as stated: with principal 0, `calculate()` returns a schedule
containing only the initial entry, and zero totals. -/
def C7ZeroPrincipalClaim (M : MathPrims) (base : Context) (ops : List Operator) : Prop :=
  base.presentValue = 0 →
    (calculate M base ops).2.length = 1 ∧
    (calculate M base ops).1 = some { repayment := 0, interestPaid := 0 }

/-- Claim C8 as stated: a negative principal, interest rate, or term makes
construction fail (in the `Option` model of the fallible constructor,
`none`). -/
def C8ValidationClaim (M : MathPrims) (o : LoanOptions) : Prop :=
  ((mergeOptions o).presentValue < 0 ∨ (mergeOptions o).interestRate < 0 ∨
      (mergeOptions o).term < 0) →
  codeConstruct M o = none

/-- Claim C9 as stated: with no supplied term but a fixed repayment, the
derived term is `nper` rounded to the nearest whole period with ties away
from zero, and `effTerm` is the frequency-normalization of that term. -/
def C9RoundingClaim (M : MathPrims) (o : LoanOptions) : Prop :=
  (mergeOptions o).term = 0 → (mergeOptions o).repayment ≠ 0 →
    (mkContext M o).term =
      roundHalfAwayFromZero
        (M.nper (mergeOptions o).presentValue
          (effInterestRateFn (mergeOptions o).interestRate
            (mergeOptions o).interestRateFrequency (mergeOptions o).repaymentFrequency)
          (mergeOptions o).repayment) ∧
    (mkContext M o).effTerm =
      effTermFn (mkContext M o).term (mergeOptions o).termFrequency
        (mergeOptions o).repaymentFrequency

/-- Loan of 1000 at effective rate 1/10 over 2 periods with a fixed (user
supplied) repayment of 500: the instance refuting claim C2's "recompute at
the first period". -/
def c2opts : LoanOptions :=
  { presentValue := some 1000
    interestRate := some (1 / 10)
    interestRateFrequency := some 12
    term := some 2
    termFrequency := some 12
    repayment := some 500
    repaymentFrequency := some 12 }

/-- The base context of the claim-C2 counterexample instance. -/
def c2base : Context := mkContext sampleM c2opts

/-- Loan with a fractional effective term (17 months repaid annually,
`effTerm = 17/12`): the instance refuting claim C3's "last period equals
effTerm". -/
def c3opts : LoanOptions :=
  { presentValue := some 1000
    interestRate := some 0
    term := some 17
    termFrequency := some 12
    repayment := some 10
    repaymentFrequency := some 1 }

/-- The base context of the claim-C3 counterexample instance. -/
def c3base : Context := mkContext sampleM c3opts

/-- Non-negative loan whose fixed repayment (50) is below the periodic
interest (100): the instance refuting claim C5's monotonicity. -/
def c5opts : LoanOptions :=
  { presentValue := some 1000
    interestRate := some (1 / 10)
    interestRateFrequency := some 12
    term := some 3
    termFrequency := some 12
    repayment := some 50
    repaymentFrequency := some 12 }

/-- The base context of the claim-C5 counterexample instance. -/
def c5base : Context := mkContext sampleM c5opts

/-- Zero-rate loan of 1000 repaid at 500 over 2 periods: a run whose every
period covers its interest, used as the witness instance for the amended
claim C5. -/
def c5wopts : LoanOptions :=
  { presentValue := some 1000
    interestRate := some 0
    term := some 2
    termFrequency := some 12
    repayment := some 500
    repaymentFrequency := some 12 }

/-- The base context of the amended-claim-C5 witness instance. -/
def c5wbase : Context := mkContext sampleM c5wopts

/-- Zero-rate single-period loan of 100, used by the claim-C6 witness. -/
def c6opts : LoanOptions :=
  { presentValue := some 100
    interestRate := some 0
    term := some 1
    termFrequency := some 12
    repaymentFrequency := some 12 }

/-- The base context of the claim-C6 witness instance. -/
def c6base : Context := mkContext sampleM c6opts

/-- A single fee operator of amount 10 active exactly at period 1. -/
def c6ops : List Operator := [⟨1, 1, OperatorKind.feeAmount 10⟩]

/-- Zero-principal loan over one monthly period: the instance refuting
claim C7's "only the initial entry". -/
def c7opts : LoanOptions :=
  { presentValue := some 0
    interestRate := some 0
    term := some 1
    termFrequency := some 12
    repaymentFrequency := some 12 }

/-- The base context of the claim-C7 counterexample instance. -/
def c7base : Context := mkContext sampleM c7opts

/-- Options with negative principal, rate and term: the instance refuting
claim C8's "construction fails". -/
def c8opts : LoanOptions :=
  { presentValue := some (-1000)
    interestRate := some (-1 / 10)
    term := some (-3) }

/-- Options with no term and a fixed repayment for which `nper` is the
negative half-integer -5/2 (present value -100 repaid at 40, rate 0): the
instance refuting claim C9's tie-rounding mode. -/
def c9opts : LoanOptions :=
  { presentValue := some (-100)
    interestRate := some 0
    repayment := some 40 }

/-- Options with no term and a fixed positive repayment (present value 100
repaid at 40, `nper = 5/2`), the witness instance for the amended claim C9. -/
def c9wopts : LoanOptions :=
  { presentValue := some 100
    interestRate := some 0
    repayment := some 40 }

instance (c : Context) : Decidable (coversInterest c) := by
  unfold coversInterest; infer_instance

instance (it itNF : ScheduleItem) : Decidable (FeeFrame it itNF) := by
  unfold FeeFrame; infer_instance

section Claims

/- Batteries marks the rational arithmetic operations irreducible, which
only hides them from the elaborator's reducer; making them semireducible
again lets `decide` evaluate the engine on concrete inputs.  (The kernel,
which finally checks every proof, reduces them either way.) -/
attribute [local semireducible] Rat.mul Rat.add Rat.sub Rat.inv

/-- Claim C1: the settlement computes its result in the spec's order —
total repayment is base plus extra plus lump sum, interest paid is
`max(0, (presentValue - offset) * effInterestRate)`, a repayment exceeding
the present value is clamped to `presentValue + interestPaid`, principal
paid is repayment minus interest, future value is present value minus
principal paid, and the fee joins the reported repayment only after
principal paid and future value are fixed: the source's
`__calculateAmortization` coincides with the settlement transcribed from
the spec's §4.4 steps. -/
theorem c1_settlement_follows_spec (c : Context) :
    calculateAmortization c = specSettle c := by
  simp only [calculateAmortization, specSettle]
  rw [max_comm]

/-- Claim C8 (amended): the constructors perform no validation — every
option set, negative principal, rate, or term included, yields a
successfully constructed context that stores the merged present value and
interest rate unchanged, and the merged term unchanged whenever it is
non-zero (never clamped, never rejected). -/
theorem c8_amended_no_validation (M : MathPrims) (o : LoanOptions) :
    (codeConstruct M o).isSome = true ∧
    (mkContext M o).presentValue = (mergeOptions o).presentValue ∧
    (mkContext M o).interestRate = (mergeOptions o).interestRate ∧
    ((mergeOptions o).term ≠ 0 → (mkContext M o).term = (mergeOptions o).term) := by
  refine ⟨rfl, rfl, rfl, fun h => ?_⟩
  unfold mkContext normalizeValues
  simp [h]

/-- Witness for the amended claim C8 at a concrete input: options with a
supplied (non-zero) term are accepted with the term stored unchanged. -/
theorem c8_amended_no_validation_witness :
    (mergeOptions c8opts).term ≠ 0 ∧ (mkContext sampleM c8opts).term = (mergeOptions c8opts).term :=
  ⟨by decide, (c8_amended_no_validation sampleM c8opts).2.2.2 (by decide)⟩

/-- Counterexample to claim C8 as stated: constructing from options with
principal -1000, rate -1/10, and term -3 does not fail. -/
theorem c8_counterexample : ¬ C8ValidationClaim sampleM c8opts := by
  intro h
  exact absurd (h (by decide)) (by decide)

/-- Claim C9 (amended): when the merged term is absent (zero), the term is
derived as `nper(presentValue, effInterestRate, repayment)` rounded to the
nearest whole period with ties rounding toward positive infinity
(JavaScript's `Math.round`, which agrees with half-away-from-zero only for
non-negative values), and `effTerm` is the frequency-normalization of that
derived term. -/
theorem c9_amended_term_derivation (M : MathPrims) (o : LoanOptions)
    (h : (mergeOptions o).term = 0) (_hrep : (mergeOptions o).repayment ≠ 0) :
    (mkContext M o).term =
      jsRound (M.nper (mergeOptions o).presentValue
        (effInterestRateFn (mergeOptions o).interestRate
          (mergeOptions o).interestRateFrequency (mergeOptions o).repaymentFrequency)
        (mergeOptions o).repayment) ∧
    (mkContext M o).effTerm =
      effTermFn (mkContext M o).term (mergeOptions o).termFrequency
        (mergeOptions o).repaymentFrequency := by
  unfold mkContext normalizeValues
  simp [h]

/-- Witness for the amended claim C9 at a concrete input: present value 100
repaid at 40 with no term gives `nper = 5/2` and a derived term of 3. -/
theorem c9_amended_term_derivation_witness :
    (mergeOptions c9wopts).term = 0 ∧
    (mkContext sampleM c9wopts).term =
      jsRound (sampleM.nper (mergeOptions c9wopts).presentValue
        (effInterestRateFn (mergeOptions c9wopts).interestRate
          (mergeOptions c9wopts).interestRateFrequency (mergeOptions c9wopts).repaymentFrequency)
        (mergeOptions c9wopts).repayment) ∧
    (mkContext sampleM c9wopts).term = 3 :=
  ⟨by decide,
    (c9_amended_term_derivation sampleM c9wopts (by decide) (by decide)).1,
    by decide⟩

/-- Counterexample to claim C9 as stated: with present value -100, fixed
repayment 40 and no term, `nper = -5/2`; the code stores
`Math.round(-5/2) = -2` while rounding ties away from zero would give -3. -/
theorem c9_counterexample : ¬ C9RoundingClaim sampleM c9opts := by
  intro h
  exact absurd (h (by decide) (by decide)).1 (by decide)

variable {M : MathPrims} {base : Context} {ops : List Operator}

lemma runLoop_zero_def (p : ℕ) (prev : ScheduleItem) :
    runLoop M base ops 0 p prev = [] := rfl

lemma runLoop_succ_def (fuel p : ℕ) (prev : ScheduleItem) :
    runLoop M base ops (fuel + 1) p prev =
      if (mkItem M base ops p prev).amortization.futureValue ≤ 0 then
        [mkItem M base ops p prev]
      else
        mkItem M base ops p prev :: runLoop M base ops fuel (p + 1) (mkItem M base ops p prev) :=
  rfl

lemma runLoop_ne_nil (n p : ℕ) (prev : ScheduleItem) :
    runLoop M base ops (n + 1) p prev ≠ [] := by
  rw [runLoop_succ_def]
  split <;> simp

lemma runLoop_get?_period :
    ∀ fuel p prev i it, (runLoop M base ops fuel p prev).get? i = some it →
      it.period = p + i := by
  intro fuel
  induction fuel with
  | zero =>
    intro p prev i it h
    rw [runLoop_zero_def] at h
    simp at h
  | succ n ih =>
    intro p prev i it h
    rw [runLoop_succ_def] at h
    by_cases hfv : (mkItem M base ops p prev).amortization.futureValue ≤ 0
    · rw [if_pos hfv] at h
      cases i with
      | zero =>
        simp only [List.get?_cons_zero, Option.some.injEq] at h
        subst h; rfl
      | succ j => simp at h
    · rw [if_neg hfv] at h
      cases i with
      | zero =>
        simp only [List.get?_cons_zero, Option.some.injEq] at h
        subst h; rfl
      | succ j =>
        simp only [List.get?_cons_succ] at h
        have := ih (p + 1) (mkItem M base ops p prev) j it h
        omega

lemma runLoop_get?_zero (fuel p : ℕ) (prev it : ScheduleItem) :
    (runLoop M base ops (fuel + 1) p prev).get? 0 = some it →
    it = mkItem M base ops p prev := by
  rw [runLoop_succ_def]
  intro h
  split at h <;>
    (simp only [List.get?_cons_zero, Option.some.injEq] at h; exact h.symm)

lemma runLoop_get?_succ :
    ∀ fuel p prev i a b, (runLoop M base ops fuel p prev).get? i = some a →
      (runLoop M base ops fuel p prev).get? (i + 1) = some b →
      b = mkItem M base ops (a.period + 1) a := by
  intro fuel
  induction fuel with
  | zero =>
    intro p prev i a b ha _
    rw [runLoop_zero_def] at ha
    simp at ha
  | succ n ih =>
    intro p prev i a b ha hb
    rw [runLoop_succ_def] at ha hb
    by_cases hfv : (mkItem M base ops p prev).amortization.futureValue ≤ 0
    · rw [if_pos hfv] at hb
      rcases i with _ | j <;> simp at hb
    · rw [if_neg hfv] at ha hb
      cases i with
      | zero =>
        simp only [List.get?_cons_zero, Option.some.injEq] at ha
        simp only [List.get?_cons_succ] at hb
        cases n with
        | zero =>
          rw [runLoop_zero_def] at hb
          simp at hb
        | succ m =>
          have hb' := runLoop_get?_zero m (p + 1) (mkItem M base ops p prev) b hb
          subst ha
          exact hb'
      | succ j =>
        simp only [List.get?_cons_succ] at ha hb
        exact ih (p + 1) (mkItem M base ops p prev) j a b ha hb

lemma runLoop_get?_fv_pos :
    ∀ fuel p prev i it, (runLoop M base ops fuel p prev).get? i = some it →
      i + 1 < (runLoop M base ops fuel p prev).length →
      0 < it.amortization.futureValue := by
  intro fuel
  induction fuel with
  | zero =>
    intro p prev i it h _
    rw [runLoop_zero_def] at h
    simp at h
  | succ n ih =>
    intro p prev i it h hlen
    rw [runLoop_succ_def] at h hlen
    by_cases hfv : (mkItem M base ops p prev).amortization.futureValue ≤ 0
    · rw [if_pos hfv] at hlen
      simp only [List.length_singleton] at hlen
      omega
    · rw [if_neg hfv] at h hlen
      cases i with
      | zero =>
        simp only [List.get?_cons_zero, Option.some.injEq] at h
        subst h
        exact lt_of_not_ge hfv
      | succ j =>
        simp only [List.get?_cons_succ] at h
        simp only [List.length_cons] at hlen
        exact ih (p + 1) (mkItem M base ops p prev) j it h (by omega)

lemma runLoop_length_le :
    ∀ fuel p prev, (runLoop M base ops fuel p prev).length ≤ fuel := by
  intro fuel
  induction fuel with
  | zero => intro p prev; rw [runLoop_zero_def]; simp
  | succ n ih =>
    intro p prev
    rw [runLoop_succ_def]
    split
    · simp
    · simp only [List.length_cons]
      have := ih (p + 1) (mkItem M base ops p prev)
      omega

lemma runLoop_length_of_all_pos :
    ∀ fuel p prev,
      (∀ it ∈ runLoop M base ops fuel p prev, 0 < it.amortization.futureValue) →
      (runLoop M base ops fuel p prev).length = fuel := by
  intro fuel
  induction fuel with
  | zero => intro p prev _; rw [runLoop_zero_def]; rfl
  | succ n ih =>
    intro p prev hall
    rw [runLoop_succ_def] at hall ⊢
    by_cases hfv : (mkItem M base ops p prev).amortization.futureValue ≤ 0
    · rw [if_pos hfv] at hall
      have := hall (mkItem M base ops p prev) (by simp)
      exact absurd this (not_lt.mpr hfv)
    · rw [if_neg hfv] at hall ⊢
      simp only [List.length_cons]
      rw [ih (p + 1) (mkItem M base ops p prev)
        (fun it hit => hall it (List.mem_cons_of_mem _ hit))]

lemma runLoop_getLast?_spec :
    ∀ fuel p prev it, (runLoop M base ops fuel p prev).getLast? = some it →
      it.amortization.futureValue ≤ 0 ∨
      (runLoop M base ops fuel p prev).length = fuel := by
  intro fuel
  induction fuel with
  | zero =>
    intro p prev it h
    rw [runLoop_zero_def] at h
    simp at h
  | succ n ih =>
    intro p prev it h
    rw [runLoop_succ_def] at h ⊢
    by_cases hfv : (mkItem M base ops p prev).amortization.futureValue ≤ 0
    · rw [if_pos hfv] at h
      simp only [List.getLast?_singleton, Option.some.injEq] at h
      subst h
      exact Or.inl hfv
    · rw [if_neg hfv] at h ⊢
      cases n with
      | zero =>
        rw [runLoop_zero_def] at h ⊢
        right
        simp
      | succ m =>
        have hne := @runLoop_ne_nil M base ops m (p + 1) (mkItem M base ops p prev)
        obtain ⟨y, t, hyt⟩ := List.exists_cons_of_ne_nil hne
        rw [hyt, List.getLast?_cons_cons] at h
        have h' : (runLoop M base ops (m + 1) (p + 1)
            (mkItem M base ops p prev)).getLast? = some it := by
          rw [hyt]
          exact h
        rcases ih (p + 1) (mkItem M base ops p prev) it h' with hle | hlen
        · exact Or.inl hle
        · right
          simp only [List.length_cons, hlen]

lemma calculateSchedule_get?_zero :
    (calculateSchedule M base ops).get? 0 = some (initialItem base) := rfl

lemma calculateSchedule_get?_succ (i : ℕ) :
    (calculateSchedule M base ops).get? (i + 1) = (runList M base ops).get? i := rfl

lemma calculateSchedule_period (i : ℕ) (it : ScheduleItem) :
    (calculateSchedule M base ops).get? i = some it → it.period = i := by
  cases i with
  | zero =>
    intro h
    rw [calculateSchedule_get?_zero] at h
    simp only [Option.some.injEq] at h
    rw [← h]
    rfl
  | succ j =>
    intro h
    rw [calculateSchedule_get?_succ] at h
    have := runLoop_get?_period (effTermNat base) 1 (initialItem base) j it h
    omega

lemma calculateSchedule_chain (i : ℕ) (a b : ScheduleItem) :
    (calculateSchedule M base ops).get? i = some a →
    (calculateSchedule M base ops).get? (i + 1) = some b →
    b = mkItem M base ops (a.period + 1) a := by
  cases i with
  | zero =>
    intro ha hb
    rw [calculateSchedule_get?_zero] at ha
    simp only [Option.some.injEq] at ha
    rw [calculateSchedule_get?_succ] at hb
    unfold runList at hb
    cases hN : effTermNat base with
    | zero =>
      rw [hN, runLoop_zero_def] at hb
      simp at hb
    | succ k =>
      rw [hN] at hb
      have := runLoop_get?_zero k 1 (initialItem base) b hb
      rw [← ha]
      exact this
  | succ j =>
    intro ha hb
    rw [calculateSchedule_get?_succ] at ha hb
    exact runLoop_get?_succ (effTermNat base) 1 (initialItem base) j a b ha hb

lemma foldl_applyOperator_presentValue :
    ∀ (l : List Operator) (c : Context),
      (l.foldl applyOperator c).presentValue = c.presentValue := by
  intro l
  induction l with
  | nil => intro c; rfl
  | cons o t ih =>
    intro c
    rw [List.foldl_cons, ih]
    obtain ⟨s, e, k⟩ := o
    cases k <;> rfl

lemma applyOperators_presentValue (c : Context) (p : ℕ) :
    (applyOperators c p ops).presentValue = c.presentValue :=
  foldl_applyOperator_presentValue _ _

lemma calculateContext_presentValue (p : ℕ) (prev : ScheduleItem) :
    (calculateContext M base ops p prev).presentValue = prev.amortization.futureValue := by
  show (applyOperators { base with presentValue := prev.amortization.futureValue } p
    ops).presentValue = prev.amortization.futureValue
  rw [applyOperators_presentValue]

lemma mkItem_presentValue (p : ℕ) (prev : ScheduleItem) :
    (mkItem M base ops p prev).context.presentValue = prev.amortization.futureValue :=
  calculateContext_presentValue p prev

lemma mkItem_repayment (p : ℕ) (prev : ScheduleItem) :
    (mkItem M base ops p prev).context.repayment =
      if prev.context.repayment = 0 ∨
          prev.context.effInterestRate ≠ (mkItem M base ops p prev).context.effInterestRate then
        (if (mkItem M base ops p prev).context.repaymentType = RepaymentType.interestOnly then
          (mkItem M base ops p prev).context.presentValue *
            (mkItem M base ops p prev).context.effInterestRate
        else
          M.pmt (mkItem M base ops p prev).context.presentValue
            (mkItem M base ops p prev).context.effInterestRate
            ((mkItem M base ops p prev).context.effTerm - (p : ℚ) + 1))
      else prev.context.repayment := rfl

/-- Claim C10: entries are indexed consecutively (the i-th entry has period
i, starting from the period-0 initial entry), every later entry's context
carries the immediately preceding entry's future value as its present
value, and the initial entry's future value is the base present value. -/
theorem c10_schedule_links (M : MathPrims) (base : Context) (ops : List Operator) :
    (calculateSchedule M base ops).get? 0 = some (initialItem base) ∧
    (initialItem base).amortization.futureValue = base.presentValue ∧
    (∀ i it, (calculateSchedule M base ops).get? i = some it → it.period = i) ∧
    (∀ i a b, (calculateSchedule M base ops).get? i = some a →
      (calculateSchedule M base ops).get? (i + 1) = some b →
      b.context.presentValue = a.amortization.futureValue) := by
  refine ⟨rfl, rfl, fun i it h => calculateSchedule_period i it h, fun i a b ha hb => ?_⟩
  rw [calculateSchedule_chain i a b ha hb]
  exact mkItem_presentValue _ _

/-- Witness for claim C10 at a concrete input: in the fixed-repayment run
on `c2base`, entry 1 exists and its present value is entry 0's future
value. -/
theorem c10_schedule_links_witness :
    (calculateSchedule sampleM c2base []).get? 1 =
      some (mkItem sampleM c2base [] 1 (initialItem c2base)) ∧
    (mkItem sampleM c2base [] 1 (initialItem c2base)).context.presentValue =
      (initialItem c2base).amortization.futureValue :=
  ⟨by decide,
    (c10_schedule_links sampleM c2base []).2.2.2 0 (initialItem c2base)
      (mkItem sampleM c2base [] 1 (initialItem c2base)) (by decide) (by decide)⟩

/-- Claim C2 (amended): the base repayment is recomputed exactly when the
previous entry's repayment is zero/falsy (at the first period this means no
fixed repayment was supplied, since the initial entry carries the user's
repayment) or the effective rate differs (by exact comparison) from the
previous entry's; otherwise the previous entry's repayment is carried over
unchanged.  When recomputed it is `presentValue * effInterestRate` for
interest-only loans and `pmt(presentValue, effInterestRate, effTerm - p + 1)`
otherwise. -/
theorem c2_amended_repayment_policy (M : MathPrims) (base : Context) (ops : List Operator) :
    ∀ i prev it,
      (calculateSchedule M base ops).get? i = some prev →
      (calculateSchedule M base ops).get? (i + 1) = some it →
      it.context.repayment =
        if prev.context.repayment = 0 ∨
            prev.context.effInterestRate ≠ it.context.effInterestRate then
          (if it.context.repaymentType = RepaymentType.interestOnly then
            it.context.presentValue * it.context.effInterestRate
          else
            M.pmt it.context.presentValue it.context.effInterestRate
              (it.context.effTerm - ((i + 1 : ℕ) : ℚ) + 1))
        else prev.context.repayment := by
  intro i prev it hprev hit
  have hper : prev.period = i := calculateSchedule_period i prev hprev
  have hchain := calculateSchedule_chain i prev it hprev hit
  rw [hper] at hchain
  subst hchain
  exact mkItem_repayment (i + 1) prev

/-- Witness for the amended claim C2 at a concrete input: the fixed
repayment 500 is carried over into period 1 of the `c2base` run. -/
theorem c2_amended_repayment_policy_witness :
    (calculateSchedule sampleM c2base []).get? 0 = some (initialItem c2base) ∧
    (calculateSchedule sampleM c2base []).get? 1 =
      some (mkItem sampleM c2base [] 1 (initialItem c2base)) ∧
    (mkItem sampleM c2base [] 1 (initialItem c2base)).context.repayment = 500 := by
  refine ⟨by decide, by decide, ?_⟩
  rw [c2_amended_repayment_policy sampleM c2base [] 0 (initialItem c2base)
    (mkItem sampleM c2base [] 1 (initialItem c2base)) (by decide) (by decide)]
  decide

/-- Counterexample to claim C2 as stated: in the `c2base` run (fixed
repayment 500, no rate change), period 1 is the first period yet its
repayment is the carried-over 500, not the recomputed
`pmt(1000, 1/10, 2) = 600`. -/
theorem c2_counterexample : ¬ C2RepaymentClaim sampleM c2base [] 1 := by
  intro h
  have h1 := h (mkItem sampleM c2base [] 1 (initialItem c2base)) (initialItem c2base)
    (le_refl 1) (by decide) (by decide)
  exact absurd h1 (by decide)

/-- Claim C3 (amended): the loop processes periods 1, 2, ... consecutively
and stops exactly when the just-settled entry's future value is ≤ 0 or the
period counter passes `effTerm`; consequently every non-final running entry
has positive future value, the running entries never outnumber
`⌊effTerm⌋`, they number exactly `⌊effTerm⌋` when no future value ever
drops to 0, and the final entry either has future value ≤ 0 or has period
`⌊effTerm⌋` (the whole-period part of `effTerm`, which equals `effTerm`
whenever the latter is a whole number). -/
theorem c3_amended_loop_termination (M : MathPrims) (base : Context) (ops : List Operator) :
    (∀ i it, (runList M base ops).get? i = some it → it.period = i + 1) ∧
    (∀ i it, (runList M base ops).get? i = some it →
      i + 1 < (runList M base ops).length → 0 < it.amortization.futureValue) ∧
    (runList M base ops).length ≤ effTermNat base ∧
    ((∀ it ∈ runList M base ops, 0 < it.amortization.futureValue) →
      (runList M base ops).length = effTermNat base) ∧
    (∀ it, (runList M base ops).getLast? = some it →
      it.amortization.futureValue ≤ 0 ∨ it.period = effTermNat base) := by
  refine ⟨?_, ?_, ?_, ?_, ?_⟩
  · intro i it h
    have := runLoop_get?_period (effTermNat base) 1 (initialItem base) i it h
    omega
  · intro i it h hlen
    exact runLoop_get?_fv_pos (effTermNat base) 1 (initialItem base) i it h hlen
  · exact runLoop_length_le (effTermNat base) 1 (initialItem base)
  · exact runLoop_length_of_all_pos (effTermNat base) 1 (initialItem base)
  · intro it h
    rcases runLoop_getLast?_spec (effTermNat base) 1 (initialItem base) it h with hle | hlen
    · exact Or.inl hle
    · right
      have hne : runList M base ops ≠ [] := by
        intro he
        rw [he] at h
        simp at h
      have hpos : 1 ≤ (runList M base ops).length := List.length_pos.mpr hne
      have hg : (runList M base ops).get? ((runList M base ops).length - 1) = some it := by
        rw [← List.getLast?_eq_get?]
        exact h
      have hper := runLoop_get?_period (effTermNat base) 1 (initialItem base) _ it hg
      have hlen' : (runList M base ops).length = effTermNat base := hlen
      omega

/-- Witness for the amended claim C3 at a concrete input: the `c3base` run
(effTerm = 17/12) has exactly one running entry, whose period is 1 =
⌊effTerm⌋. -/
theorem c3_amended_loop_termination_witness :
    (runList sampleM c3base []).get? 0 =
      some (mkItem sampleM c3base [] 1 (initialItem c3base)) ∧
    (mkItem sampleM c3base [] 1 (initialItem c3base)).period = 1 ∧
    (runList sampleM c3base []).length = 1 ∧ effTermNat c3base = 1 :=
  ⟨by decide,
    (c3_amended_loop_termination sampleM c3base []).1 0
      (mkItem sampleM c3base [] 1 (initialItem c3base)) (by decide),
    by decide, by decide⟩

/-- Counterexample to claim C3 as stated: in the `c3base` run every settled
future value stays positive, yet the last entry's period is 1 while
`effTerm = 17/12`; the loop bound is the whole-period part of `effTerm`,
not `effTerm` itself. -/
theorem c3_counterexample : ¬ C3LastPeriodClaim sampleM c3base [] := by
  intro h
  have := h (by decide) (mkItem sampleM c3base [] 1 (initialItem c3base)) (by decide)
  exact absurd this (by decide)

lemma foldl_addTotals (l : List Amortization) :
    ∀ t : Totals, l.foldl addTotals t =
      { repayment := t.repayment + (l.map (fun a => a.repayment)).sum
        interestPaid := t.interestPaid + (l.map (fun a => a.interestPaid)).sum } := by
  induction l with
  | nil =>
    intro t
    obtain ⟨tr, ti⟩ := t
    simp
  | cons a l ih =>
    intro t
    rw [List.foldl_cons, ih]
    simp only [addTotals, List.map_cons, List.sum_cons, Totals.mk.injEq]
    constructor <;> ring

lemma runList_mem_period {it : ScheduleItem} (hit : it ∈ runList M base ops) :
    1 ≤ it.period := by
  obtain ⟨n, hn⟩ := List.mem_iff_get?.mp hit
  have := runLoop_get?_period (effTermNat base) 1 (initialItem base) n it hn
  omega

lemma filter_runList :
    (runList M base ops).filter (fun it => decide (1 ≤ it.period)) = runList M base ops := by
  rw [List.filter_eq_self]
  intro a ha
  simp only [decide_eq_true_eq]
  exact runList_mem_period ha

/-- Claim C4: the reported totals are always computed (the reduction is
never empty, because the initial entry is always present, so `calculate`
never throws), and they equal the sums of `repayment` and `interestPaid`
over the entries with period ≥ 1 — the period-0 initial entry contributes
nothing since its amortization values are zero by construction. -/
theorem c4_totals_sum (M : MathPrims) (base : Context) (ops : List Operator) :
    (calculate M base ops).1 =
      some { repayment :=
               ((((calculate M base ops).2.filter (fun it => decide (1 ≤ it.period))).map
                 (fun it => it.amortization.repayment)).sum)
             interestPaid :=
               ((((calculate M base ops).2.filter (fun it => decide (1 ≤ it.period))).map
                 (fun it => it.amortization.interestPaid)).sum) } := by
  have h1 : (calculate M base ops).1 =
      calculateTotals ((initialItem base :: runList M base ops).map
        (fun it => it.amortization)) := rfl
  have h2 : (calculate M base ops).2 = initialItem base :: runList M base ops := rfl
  rw [h1, h2, List.map_cons]
  have h3 : calculateTotals ((initialItem base).amortization ::
      (runList M base ops).map (fun it => it.amortization)) =
      some (((runList M base ops).map (fun it => it.amortization)).foldl addTotals
        { repayment := 0, interestPaid := 0 }) := rfl
  rw [h3, foldl_addTotals]
  have h4 : (initialItem base :: runList M base ops).filter
      (fun it => decide (1 ≤ it.period)) = runList M base ops := by
    rw [List.filter_cons, if_neg (by simp [initialItem])]
    exact filter_runList
  rw [h4]
  simp only [List.map_map, zero_add]
  rfl

lemma calculateAmortization_futureValue (c : Context) :
    (calculateAmortization c).futureValue =
      c.presentValue -
        ((if c.repayment + c.effExtraRepayment + c.lumpSum > c.presentValue then
            c.presentValue + max ((c.presentValue - c.offset) * c.effInterestRate) 0
          else c.repayment + c.effExtraRepayment + c.lumpSum) -
          max ((c.presentValue - c.offset) * c.effInterestRate) 0) := rfl

lemma settle_fv_le_and_nonneg (c : Context) (hpv : 0 ≤ c.presentValue)
    (hcov : coversInterest c) :
    (calculateAmortization c).futureValue ≤ c.presentValue ∧
    0 ≤ (calculateAmortization c).futureValue := by
  rw [calculateAmortization_futureValue]
  have hip : 0 ≤ max ((c.presentValue - c.offset) * c.effInterestRate) 0 := le_max_right _ _
  have hcov' : max ((c.presentValue - c.offset) * c.effInterestRate) 0 ≤
      c.repayment + c.effExtraRepayment + c.lumpSum := hcov
  by_cases hcap : c.repayment + c.effExtraRepayment + c.lumpSum > c.presentValue
  · rw [if_pos hcap]
    constructor <;> linarith
  · rw [if_neg hcap]
    push_neg at hcap
    constructor <;> linarith

lemma schedule_fv_nonneg (hpv : 0 ≤ base.presentValue)
    (hcov : ∀ it ∈ runList M base ops, coversInterest it.context) :
    ∀ i it, (calculateSchedule M base ops).get? i = some it →
      0 ≤ it.amortization.futureValue := by
  intro i
  induction i with
  | zero =>
    intro it h
    rw [calculateSchedule_get?_zero] at h
    simp only [Option.some.injEq] at h
    rw [← h]
    exact hpv
  | succ j ih =>
    intro it h
    have hlt : j + 1 < (calculateSchedule M base ops).length := (List.get?_eq_some.mp h).1
    have hj : j < (calculateSchedule M base ops).length := by omega
    obtain ⟨prev, hprev⟩ : ∃ prev, (calculateSchedule M base ops).get? j = some prev :=
      ⟨_, List.get?_eq_get hj⟩
    have hchain := calculateSchedule_chain j prev it hprev h
    have hprevfv := ih prev hprev
    have hmem : it ∈ runList M base ops := by
      rw [calculateSchedule_get?_succ] at h
      exact List.get?_mem h
    have hc := hcov _ hmem
    subst hchain
    have hpv' : 0 ≤ (mkItem M base ops (prev.period + 1) prev).context.presentValue := by
      rw [mkItem_presentValue]
      exact hprevfv
    exact (settle_fv_le_and_nonneg _ hpv' hc).2

/-- Claim C5 (amended): future value is monotonically non-increasing from
each entry to the next provided the base present value is non-negative and
every running period's pending repayment (base plus extra plus lump sum)
covers its interest charge — a condition every recomputed repayment meets
but a small user-supplied fixed repayment can violate. -/
theorem c5_amended_monotonic (M : MathPrims) (base : Context) (ops : List Operator)
    (hpv : 0 ≤ base.presentValue)
    (hcov : ∀ it ∈ runList M base ops, coversInterest it.context) :
    ∀ i a b, (calculateSchedule M base ops).get? i = some a →
      (calculateSchedule M base ops).get? (i + 1) = some b →
      b.amortization.futureValue ≤ a.amortization.futureValue := by
  intro i a b ha hb
  have hchain := calculateSchedule_chain i a b ha hb
  have hfva := schedule_fv_nonneg hpv hcov i a ha
  have hmem : b ∈ runList M base ops := by
    rw [calculateSchedule_get?_succ] at hb
    exact List.get?_mem hb
  have hc := hcov _ hmem
  subst hchain
  have hpv' : 0 ≤ (mkItem M base ops (a.period + 1) a).context.presentValue := by
    rw [mkItem_presentValue]
    exact hfva
  have hle := (settle_fv_le_and_nonneg _ hpv' hc).1
  rw [mkItem_presentValue] at hle
  exact hle

/-- Witness for the amended claim C5 at a concrete input: the zero-rate
run on `c5wbase` covers its interest each period, and its future value
falls from 1000 to 500. -/
theorem c5_amended_monotonic_witness :
    (calculateSchedule sampleM c5wbase []).get? 1 =
      some (mkItem sampleM c5wbase [] 1 (initialItem c5wbase)) ∧
    (mkItem sampleM c5wbase [] 1 (initialItem c5wbase)).amortization.futureValue ≤
      (initialItem c5wbase).amortization.futureValue :=
  ⟨by decide,
    c5_amended_monotonic sampleM c5wbase [] (by decide) (by decide) 0 (initialItem c5wbase)
      (mkItem sampleM c5wbase [] 1 (initialItem c5wbase)) (by decide) (by decide)⟩

/-- Counterexample to claim C5 as stated: the `c5base` run has only
non-negative inputs (principal 1000, rate 1/10, term 3, fixed repayment
50), yet period 1's future value is 1050 > 1000, because the carried fixed
repayment does not cover the period interest. -/
theorem c5_counterexample :
    (0 ≤ c5base.presentValue ∧ 0 ≤ c5base.interestRate ∧ 0 ≤ c5base.term ∧
      0 ≤ c5base.repayment ∧ 0 ≤ c5base.effInterestRate ∧ 0 ≤ c5base.effTerm ∧
      0 < c5base.interestRateFrequency ∧ 0 < c5base.termFrequency ∧
      0 < c5base.repaymentFrequency) ∧
    ¬ C5MonotoneClaim sampleM c5base [] := by
  refine ⟨by decide, ?_⟩
  intro h
  have := h 0 (initialItem c5base) (mkItem sampleM c5base [] 1 (initialItem c5base))
    (by decide) (by decide)
  exact absurd this (by decide)

lemma applyOperator_setFee (c : Context) (x : ℚ) (o : Operator) :
    applyOperator (setFee c x) o = setFee (applyOperator c o) (feeUpdate o x) := by
  obtain ⟨s, e, k⟩ := o
  cases k <;> rfl

lemma foldl_applyOperator_setFee :
    ∀ (l : List Operator) (c : Context) (x : ℚ),
      l.foldl applyOperator (setFee c x) =
        setFee (l.foldl applyOperator c) (l.foldl (fun f o => feeUpdate o f) x) := by
  intro l
  induction l with
  | nil => intro c x; rfl
  | cons o t ih =>
    intro c x
    rw [List.foldl_cons, applyOperator_setFee, ih, List.foldl_cons, List.foldl_cons]

lemma applyOperator_fee_of_not_fee (c : Context) (o : Operator) (h : isFeeOp o = false) :
    (applyOperator c o).fee = c.fee := by
  obtain ⟨s, e, k⟩ := o
  cases k <;> first | rfl | simp [isFeeOp] at h

lemma foldl_eraseFees :
    ∀ (l : List Operator) (c : Context),
      (l.filter (fun o => !(isFeeOp o))).foldl applyOperator c =
        setFee (l.foldl applyOperator c) c.fee := by
  intro l
  induction l with
  | nil =>
    intro c
    show c = setFee c c.fee
    rfl
  | cons o t ih =>
    intro c
    by_cases hf : isFeeOp o
    · obtain ⟨s, e, k⟩ := o
      cases k with
      | feeAmount a =>
        rw [List.filter_cons,
          if_neg (show ¬((!isFeeOp ⟨s, e, OperatorKind.feeAmount a⟩) = true) by simp [isFeeOp])]
        rw [ih c, List.foldl_cons,
          show applyOperator c ⟨s, e, OperatorKind.feeAmount a⟩ = setFee c a from rfl,
          foldl_applyOperator_setFee]
        rfl
      | offsetAmount a => simp [isFeeOp] at hf
      | lumpSumAmount a => simp [isFeeOp] at hf
      | extraRepaymentAmount a => simp [isFeeOp] at hf
      | interestRateChange r f => simp [isFeeOp] at hf
    · have hff : isFeeOp o = false := by simpa using hf
      rw [List.filter_cons, if_pos (show (!isFeeOp o) = true by simp [hff])]
      rw [List.foldl_cons, List.foldl_cons, ih (applyOperator c o),
        applyOperator_fee_of_not_fee c o hff]

lemma getOperatorsAt_eraseFees (p : ℕ) :
    getOperatorsAt (eraseFees ops) p =
      (getOperatorsAt ops p).filter (fun o => !(isFeeOp o)) := by
  unfold getOperatorsAt eraseFees
  rw [List.filter_filter, List.filter_filter]
  apply List.filter_congr
  intro a _
  exact Bool.and_comm _ _

lemma applyOperators_eraseFees (c : Context) (p : ℕ) :
    applyOperators c p (eraseFees ops) = setFee (applyOperators c p ops) c.fee := by
  unfold applyOperators
  rw [getOperatorsAt_eraseFees]
  exact foldl_eraseFees _ _

lemma calculateRepayment_setFee (p : ℕ) (c : Context) (x : ℚ) :
    calculateRepayment M p (setFee c x) = calculateRepayment M p c := rfl

lemma calculateAmortization_repayment (c : Context) :
    (calculateAmortization c).repayment =
      (if c.repayment + c.effExtraRepayment + c.lumpSum > c.presentValue then
          c.presentValue + max ((c.presentValue - c.offset) * c.effInterestRate) 0
        else c.repayment + c.effExtraRepayment + c.lumpSum) + c.fee := rfl

lemma calculateAmortization_interestPaid (c : Context) :
    (calculateAmortization c).interestPaid =
      max ((c.presentValue - c.offset) * c.effInterestRate) 0 := rfl

lemma calculateAmortization_principalPaid (c : Context) :
    (calculateAmortization c).principalPaid =
      (if c.repayment + c.effExtraRepayment + c.lumpSum > c.presentValue then
          c.presentValue + max ((c.presentValue - c.offset) * c.effInterestRate) 0
        else c.repayment + c.effExtraRepayment + c.lumpSum) -
        max ((c.presentValue - c.offset) * c.effInterestRate) 0 := rfl

lemma calculateAmortization_setFee_frame (c : Context) :
    calculateAmortization (setFee c 0) =
      { calculateAmortization c with
          repayment := (calculateAmortization c).repayment - c.fee } := by
  refine Amortization.ext rfl ?_ rfl rfl
  show (calculateAmortization (setFee c 0)).repayment =
    (calculateAmortization c).repayment - c.fee
  rw [calculateAmortization_repayment (setFee c 0), calculateAmortization_repayment c]
  show (if c.repayment + c.effExtraRepayment + c.lumpSum > c.presentValue then
      c.presentValue + max ((c.presentValue - c.offset) * c.effInterestRate) 0
    else c.repayment + c.effExtraRepayment + c.lumpSum) + 0 = _
  ring

lemma calculateContext_def (p : ℕ) (prev : ScheduleItem) :
    calculateContext M base ops p prev =
      { applyOperators { base with presentValue := prev.amortization.futureValue } p ops with
          repayment :=
            if prev.context.repayment = 0 ∨ prev.context.effInterestRate ≠
                (applyOperators { base with presentValue := prev.amortization.futureValue }
                  p ops).effInterestRate then
              calculateRepayment M p
                (applyOperators { base with presentValue := prev.amortization.futureValue } p ops)
            else prev.context.repayment } := rfl

lemma calculateContext_feeFrame (p : ℕ) (prev prevNF : ScheduleItem)
    (hbase : base.fee = 0)
    (hctx : prevNF.context = setFee prev.context 0)
    (ham : prevNF.amortization =
      { prev.amortization with
          repayment := prev.amortization.repayment - prev.context.fee }) :
    calculateContext M base (eraseFees ops) p prevNF =
      setFee (calculateContext M base ops p prev) 0 := by
  have hfv : prevNF.amortization.futureValue = prev.amortization.futureValue := by
    rw [ham]
  have hrep : prevNF.context.repayment = prev.context.repayment := by
    rw [hctx]; rfl
  have heff : prevNF.context.effInterestRate = prev.context.effInterestRate := by
    rw [hctx]; rfl
  have hcfee : ({ base with presentValue := prev.amortization.futureValue } : Context).fee = 0 :=
    hbase
  rw [calculateContext_def, calculateContext_def, hfv, hrep, heff,
    applyOperators_eraseFees, hcfee, calculateRepayment_setFee]
  ext <;> simp [setFee]

lemma mkItem_feeFrame (p : ℕ) (prev prevNF : ScheduleItem) (hbase : base.fee = 0)
    (h : FeeFrame prev prevNF) :
    FeeFrame (mkItem M base ops p prev) (mkItem M base (eraseFees ops) p prevNF) := by
  obtain ⟨hper, hctx, ham⟩ := h
  have hc := @calculateContext_feeFrame M base ops p prev prevNF hbase hctx ham
  refine ⟨rfl, hc, ?_⟩
  show calculateAmortization (calculateContext M base (eraseFees ops) p prevNF) =
    { calculateAmortization (calculateContext M base ops p prev) with
        repayment := (calculateAmortization (calculateContext M base ops p prev)).repayment -
          (calculateContext M base ops p prev).fee }
  rw [show calculateContext M base (eraseFees ops) p prevNF =
      setFee (calculateContext M base ops p prev) 0 from hc]
  exact calculateAmortization_setFee_frame _

lemma runLoop_feeFrame (hbase : base.fee = 0) :
    ∀ fuel p prev prevNF, FeeFrame prev prevNF →
      List.Forall₂ FeeFrame (runLoop M base ops fuel p prev)
        (runLoop M base (eraseFees ops) fuel p prevNF) := by
  intro fuel
  induction fuel with
  | zero =>
    intro p prev prevNF _
    rw [runLoop_zero_def, runLoop_zero_def]
    exact List.Forall₂.nil
  | succ n ih =>
    intro p prev prevNF h
    have hm := @mkItem_feeFrame M base ops p prev prevNF hbase h
    have hfv : (mkItem M base (eraseFees ops) p prevNF).amortization.futureValue =
        (mkItem M base ops p prev).amortization.futureValue := by
      rw [hm.2.2]
    rw [runLoop_succ_def, runLoop_succ_def, hfv]
    by_cases hle : (mkItem M base ops p prev).amortization.futureValue ≤ 0
    · rw [if_pos hle, if_pos hle]
      exact List.Forall₂.cons hm List.Forall₂.nil
    · rw [if_neg hle, if_neg hle]
      exact List.Forall₂.cons hm (ih (p + 1) _ _ hm)

lemma forall₂_get? {α β : Type} {R : α → β → Prop} :
    ∀ {l : List α} {l' : List β}, List.Forall₂ R l l' →
      ∀ i a b, l.get? i = some a → l'.get? i = some b → R a b := by
  intro l l' h
  induction h with
  | nil => intro i a b ha _; simp at ha
  | cons hR hrest ih =>
    intro i a b ha hb
    cases i with
    | zero =>
      simp only [List.get?_cons_zero, Option.some.injEq] at ha hb
      rw [← ha, ← hb]
      exact hR
    | succ j =>
      simp only [List.get?_cons_succ] at ha hb
      exact ih j a b ha hb

lemma initialItem_feeFrame (hbase : base.fee = 0) :
    FeeFrame (initialItem base) (initialItem base) := by
  refine ⟨rfl, ?_, ?_⟩
  · show base = setFee base 0
    rw [← hbase]
    rfl
  · refine Amortization.ext rfl ?_ rfl rfl
    show (0 : ℚ) = 0 - base.fee
    rw [hbase, sub_zero]

/-- Claim C6: a fee adjustment changes only the reported repayment — the
run with the fee operators removed has a schedule of the same length whose
entries agree period by period on everything (context included) except the
`fee` field and the reported repayment, which differs by exactly that
period's fee; interestPaid, principalPaid, and futureValue of every entry
are identical. -/
theorem c6_fee_frame_effect (M : MathPrims) (base : Context) (ops : List Operator)
    (hbase : base.fee = 0) :
    (calculateSchedule M base (eraseFees ops)).length =
      (calculateSchedule M base ops).length ∧
    ∀ i it itNF,
      (calculateSchedule M base ops).get? i = some it →
      (calculateSchedule M base (eraseFees ops)).get? i = some itNF →
      itNF.period = it.period ∧
      itNF.context = setFee it.context 0 ∧
      itNF.amortization.interestPaid = it.amortization.interestPaid ∧
      itNF.amortization.principalPaid = it.amortization.principalPaid ∧
      itNF.amortization.futureValue = it.amortization.futureValue ∧
      it.amortization.repayment = itNF.amortization.repayment + it.context.fee := by
  have hall : List.Forall₂ FeeFrame (calculateSchedule M base ops)
      (calculateSchedule M base (eraseFees ops)) :=
    List.Forall₂.cons (initialItem_feeFrame hbase)
      (runLoop_feeFrame hbase (effTermNat base) 1 (initialItem base) (initialItem base)
        (initialItem_feeFrame hbase))
  constructor
  · exact hall.length_eq.symm
  · intro i it itNF hit hitNF
    obtain ⟨hper, hctx, ham⟩ := forall₂_get? hall i it itNF hit hitNF
    refine ⟨hper, hctx, ?_, ?_, ?_, ?_⟩
    · rw [ham]
    · rw [ham]
    · rw [ham]
    · rw [ham]
      show it.amortization.repayment =
        it.amortization.repayment - it.context.fee + it.context.fee
      ring

/-- Witness for claim C6 at a concrete input: on the single-period run with
a period-1 fee of 10, the fee run's reported repayment is exactly 10 more
than the fee-free run's. -/
theorem c6_fee_frame_effect_witness :
    (calculateSchedule sampleM c6base c6ops).get? 1 =
      some (mkItem sampleM c6base c6ops 1 (initialItem c6base)) ∧
    (calculateSchedule sampleM c6base (eraseFees c6ops)).get? 1 =
      some (mkItem sampleM c6base (eraseFees c6ops) 1 (initialItem c6base)) ∧
    (mkItem sampleM c6base c6ops 1 (initialItem c6base)).amortization.repayment =
      (mkItem sampleM c6base (eraseFees c6ops) 1
          (initialItem c6base)).amortization.repayment +
        (mkItem sampleM c6base c6ops 1 (initialItem c6base)).context.fee ∧
    (mkItem sampleM c6base c6ops 1 (initialItem c6base)).context.fee = 10 := by
  refine ⟨by decide, by decide, ?_, by decide⟩
  exact ((c6_fee_frame_effect sampleM c6base c6ops (by decide)).2 1
    (mkItem sampleM c6base c6ops 1 (initialItem c6base))
    (mkItem sampleM c6base (eraseFees c6ops) 1 (initialItem c6base))
    (by decide) (by decide)).2.2.2.2.2

lemma settle_zero_pv (c : Context) (hpv : c.presentValue = 0)
    (hextra : c.effExtraRepayment = 0) (hlump : c.lumpSum = 0) (hoff : c.offset = 0)
    (hfee : c.fee = 0) (hrep : 0 ≤ c.repayment) :
    calculateAmortization c =
      { futureValue := 0, repayment := 0, interestPaid := 0, principalPaid := 0 } := by
  have hip : max ((c.presentValue - c.offset) * c.effInterestRate) 0 = 0 := by
    rw [hpv, hoff]
    simp
  have hcap : (if c.repayment + c.effExtraRepayment + c.lumpSum > c.presentValue then
      c.presentValue + max ((c.presentValue - c.offset) * c.effInterestRate) 0
    else c.repayment + c.effExtraRepayment + c.lumpSum) = 0 := by
    rw [hip, hextra, hlump, hpv]
    rcases eq_or_lt_of_le hrep with h0 | hpos
    · rw [if_neg (by rw [← h0]; simp)]
      rw [← h0]
      ring
    · rw [if_pos (by linarith)]
      ring
  refine Amortization.ext ?_ ?_ ?_ ?_
  · show (calculateAmortization c).futureValue = 0
    rw [calculateAmortization_futureValue, hcap, hip, hpv]
    ring
  · show (calculateAmortization c).repayment = 0
    rw [calculateAmortization_repayment, hcap, hfee]
    ring
  · show (calculateAmortization c).interestPaid = 0
    rw [calculateAmortization_interestPaid, hip]
  · show (calculateAmortization c).principalPaid = 0
    rw [calculateAmortization_principalPaid, hcap, hip]
    ring

lemma c7_ctx_repayment (M : MathPrims) (o : LoanOptions) :
    (calculateContext M (mkContext M o) [] 1 (initialItem (mkContext M o))).repayment =
      if (mkContext M o).repayment = 0 ∨ (mkContext M o).effInterestRate ≠
          (mkContext M o).effInterestRate then
        calculateRepayment M 1 (mkContext M o)
      else (mkContext M o).repayment := rfl

lemma c7_item_amortization (M : MathPrims) (o : LoanOptions)
    (hpv : (mkContext M o).presentValue = 0)
    (hpmt : ∀ r n, M.pmt 0 r n = 0)
    (hrep : 0 ≤ (mkContext M o).repayment) :
    (mkItem M (mkContext M o) [] 1 (initialItem (mkContext M o))).amortization =
      { futureValue := 0, repayment := 0, interestPaid := 0, principalPaid := 0 } := by
  have hcalc : calculateRepayment M 1 (mkContext M o) = 0 := by
    unfold calculateRepayment
    split
    · rw [hpv, zero_mul]
    · rw [hpv]
      exact hpmt _ _
  have hctxrep : 0 ≤ (calculateContext M (mkContext M o) [] 1
      (initialItem (mkContext M o))).repayment := by
    rw [c7_ctx_repayment]
    rcases eq_or_ne (mkContext M o).repayment 0 with h0 | hne
    · rw [if_pos (Or.inl h0), hcalc]
    · rw [if_neg (by simp [hne])]
      exact hrep
  show calculateAmortization (calculateContext M (mkContext M o) [] 1
      (initialItem (mkContext M o))) = _
  refine settle_zero_pv _ ?_ rfl rfl rfl rfl hctxrep
  rw [calculateContext_presentValue]
  exact hpv

/-- Claim C7 (amended): with principal 0, no adjustments and a non-negative
(or absent) fixed repayment, `calculate()` returns the initial entry plus
exactly one period-1 entry whose amortization is identically zero (the loop
still runs its first iteration before the zero future value stops it), and
totals = {repayment: 0, interestPaid: 0}. -/
theorem c7_amended_zero_principal (M : MathPrims) (o : LoanOptions)
    (hpv : (mkContext M o).presentValue = 0)
    (hpmt : ∀ r n, M.pmt 0 r n = 0)
    (hrep : 0 ≤ (mkContext M o).repayment)
    (hN : 1 ≤ effTermNat (mkContext M o)) :
    (calculate M (mkContext M o) []).2.length = 2 ∧
    (∀ it ∈ (calculate M (mkContext M o) []).2,
      it.amortization.repayment = 0 ∧ it.amortization.interestPaid = 0 ∧
      it.amortization.principalPaid = 0 ∧ it.amortization.futureValue = 0) ∧
    (calculate M (mkContext M o) []).1 = some { repayment := 0, interestPaid := 0 } := by
  have ham := c7_item_amortization M o hpv hpmt hrep
  have hrun : runList M (mkContext M o) [] =
      [mkItem M (mkContext M o) [] 1 (initialItem (mkContext M o))] := by
    obtain ⟨k, hk⟩ : ∃ k, effTermNat (mkContext M o) = k + 1 :=
      ⟨effTermNat (mkContext M o) - 1, by omega⟩
    show runLoop M (mkContext M o) [] (effTermNat (mkContext M o)) 1
      (initialItem (mkContext M o)) = _
    rw [hk, runLoop_succ_def, if_pos (by rw [ham])]
  have hsched : (calculate M (mkContext M o) []).2 =
      [initialItem (mkContext M o),
        mkItem M (mkContext M o) [] 1 (initialItem (mkContext M o))] := by
    show initialItem (mkContext M o) :: runList M (mkContext M o) [] = _
    rw [hrun]
  refine ⟨?_, ?_, ?_⟩
  · rw [hsched]
    rfl
  · rw [hsched]
    intro it hit
    rcases List.mem_cons.mp hit with h1 | h2
    · subst h1
      exact ⟨rfl, rfl, rfl, hpv⟩
    · rcases List.mem_cons.mp h2 with h1 | h3
      · subst h1
        refine ⟨?_, ?_, ?_, ?_⟩ <;> rw [ham]
      · simp at h3
  · have h1 : (calculate M (mkContext M o) []).1 =
        calculateTotals (((calculate M (mkContext M o) []).2).map
          (fun it => it.amortization)) := rfl
    rw [h1, hsched, List.map_cons, List.map_cons, List.map_nil, ham]
    show some ({ repayment := 0 + 0, interestPaid := 0 + 0 } : Totals) =
      some { repayment := 0, interestPaid := 0 }
    norm_num

/-- Witness for the amended claim C7 at a concrete input: the zero-principal
one-month run has a two-entry schedule and zero totals. -/
theorem c7_amended_zero_principal_witness :
    (mkContext sampleM c7opts).presentValue = 0 ∧
    (calculate sampleM (mkContext sampleM c7opts) []).2.length = 2 ∧
    (calculate sampleM (mkContext sampleM c7opts) []).1 =
      some { repayment := 0, interestPaid := 0 } := by
  have h := c7_amended_zero_principal sampleM c7opts (by decide)
    (fun r n => by simp [sampleM, samplePmt]) (by decide) (by decide)
  exact ⟨by decide, h.1, h.2.2⟩

/-- Counterexample to claim C7 as stated: with principal 0 and a one-month
term the schedule has two entries (the initial entry plus a zero period-1
entry), not one. -/
theorem c7_counterexample : ¬ C7ZeroPrincipalClaim sampleM c7base [] := by
  intro h
  have := (h (by decide)).1
  exact absurd this (by decide)

end Claims

end LoanEngine
